import Mathlib

/-!
Verification development for the PSAnalysisTutorial repository.

The repository consists of three driver scripts (`psa_full.py`, `psa_short.py`,
`psa_hausdorff-pairs.py`).  The pairwise-comparison identifier scheme
(`PairID` with `add_sim` and `get_pair_id`, imported from the `pair_id`
module) is not among the given source files, so its operations are modelled
from the specification; the label/simulation build loops of the three driver
scripts are embedded directly from the source.
-/

/-! ## Data model of the pair indexer -/

/-- A (name, run) pair uniquely identifying one registered trajectory.
Equality is by value (spec §3, SimulationIdentity). -/
structure SimulationIdentity where
  name : String
  run : Nat
deriving DecidableEq, Repr

/-- The ordered sequence of registered identities (spec §3, Catalog). -/
abbrev Catalog := List SimulationIdentity

/-- The failure kinds of the pair indexer (spec §7). -/
inductive PairError where
  | DuplicateIdentityError (offending : SimulationIdentity)
  | UnknownIdentityError (offending : SimulationIdentity)
  | InvalidPairError (offending : SimulationIdentity)
  | CatalogSealedError
deriving DecidableEq, Repr

/-- The pair indexer state: the ordered Catalog plus the open/closed phase
flag (spec §4.1: the component has an open registration phase and a closed
query phase; the transition is implicit at first query). -/
structure PairID where
  catalog : Catalog
  sealed : Bool
deriving DecidableEq, Repr

/-- A fresh indexer: Catalog is created empty, in the open phase. -/
def emptyPairID : PairID := { catalog := [], sealed := false }

/-- Modelled from the spec: the closed-form condensed-vector index
`N*i - i*(i+1)/2 + (j - i - 1)` of spec §4.1 `pair_index` (the body of the
`pair_id` module holding `get_pair_id` is not among the repository sources
given here). -/
def condensedIndex (N i j : Nat) : Nat :=
  N * i - i * (i + 1) / 2 + (j - i - 1)

/-- Modelled from the spec: `pair_index(identity_a, identity_b)` of §4.1,
the query core of `get_pair_id`.  Fails with `UnknownIdentityError` if
either identity was never registered (checked first, in the spec's order),
fails with `InvalidPairError` if the two identities are equal, and otherwise
returns `condensedIndex` at `i = min(position a, position b)` and
`j = max(position a, position b)`, positions being Catalog positions. -/
def pair_index (cat : Catalog) (a b : SimulationIdentity) :
    Except PairError Nat :=
  if a ∈ cat then
    if b ∈ cat then
      if a = b then .error (.InvalidPairError a)
      else
        .ok (condensedIndex cat.length
              (min (cat.indexOf a) (cat.indexOf b))
              (max (cat.indexOf a) (cat.indexOf b)))
    else .error (.UnknownIdentityError b)
  else .error (.UnknownIdentityError a)

/-- Modelled from the spec: the stateful query `get_pair_id` of the `pair_id`
module.  It answers `pair_index` on the current Catalog and moves the
component into the closed phase (spec §4.1: "the transition from open to
closed is implicit at first query"). -/
def get_pair_id (st : PairID) (a b : SimulationIdentity) :
    Except PairError Nat × PairID :=
  (pair_index st.catalog a b, { st with sealed := true })

/-- Modelled from the spec: `register(name, runs)` of §4.1, the `add_sim`
method of the `pair_id` module.  Adds one SimulationIdentity per run number
for the given name, in ascending run order, appended to the Catalog; fails
with `DuplicateIdentityError` if some (name, run) was already registered,
and — adopting the strictness the spec recommends — with
`CatalogSealedError` when called in the closed phase.  The successor state
is the return value of the `Except`; spec-wise the call has no return value
and only the Catalog extension as side effect. -/
def add_sim (st : PairID) (name : String) (runs : List Nat) :
    Except PairError PairID :=
  if st.sealed then .error .CatalogSealedError
  else
    match runs.find? (fun r => decide (SimulationIdentity.mk name r ∈ st.catalog)) with
    | some r => .error (.DuplicateIdentityError ⟨name, r⟩)
    | none =>
        let appended : List SimulationIdentity :=
          (runs.dedup.insertionSort (fun x y => x ≤ y)).map (fun r => ⟨name, r⟩)
        .ok { st with catalog := st.catalog ++ appended }

/-- The catalog of the spec's concrete scenario (§8): "DIMS" with runs
[1,2,3], then "FRODA" with runs [1,2,3], then "LinInt" with run [1];
N = 7, positions 0..6 in that order. -/
def demoCatalog : Catalog :=
  [⟨"DIMS", 1⟩, ⟨"DIMS", 2⟩, ⟨"DIMS", 3⟩,
   ⟨"FRODA", 1⟩, ⟨"FRODA", 2⟩, ⟨"FRODA", 3⟩,
   ⟨"LinInt", 1⟩]

/-! ## The driver-script build loops

`psa_full.py`, `psa_short.py` and `psa_hausdorff-pairs.py` each build a
`labels` list and a `simulations` list of topology/trajectory filename pairs
with the same loop over `method_names`. -/

/-- A topology/trajectory filename pair, one entry of `simulations`. -/
structure SimFiles where
  topology : String
  trajectory : String
deriving DecidableEq, Repr

/-- `'{:03n}'.format(run)`: decimal rendering zero-padded to width 3. -/
def fmt03 (n : Nat) : String :=
  let s := toString n
  if s.length < 3 then String.mk (List.replicate (3 - s.length) '0') ++ s else s

/-- Whether the character list `pat` occurs at the head of `s`. -/
def charsStartWith : List Char → List Char → Bool
  | _, [] => true
  | [], _ :: _ => false
  | c :: cs, d :: ds => c == d && charsStartWith cs ds

/-- Whether the character list `pat` occurs contiguously inside `s`. -/
def charsContain : List Char → List Char → Bool
  | [], pat => pat.isEmpty
  | c :: cs, pat => charsStartWith (c :: cs) pat || charsContain cs pat

/-- Python's `pat in s` substring test on strings. -/
def strContains (s pat : String) : Bool := charsContain s.data pat.data

/-- The build loop shared by the three driver scripts: for each method, three
runs 1, 2, 3 (Python `xrange(1, 4)`, modelled by `List.range' 1 3`) with label
`method(run)`, except `'LinInt'` which contributes a single entry labelled
`LinInt`; topology lives in `methods/<method>/`, each run's trajectory in
`methods/<method>/<run zero-padded>/` (for `LinInt`, next to the topology).
The Python `method is not 'LinInt'` comparison of interned literals is
modelled as string inequality. -/
def buildLoop (topnameOf : String → String) (pathname : String)
    (method_names : List String) : List String × List SimFiles :=
  method_names.foldl
    (fun acc method =>
      let topname := topnameOf method
      let method_dir := "methods/" ++ method
      if method ≠ "LinInt" then
        (List.range' 1 3).foldl
          (fun acc2 run =>
            let run_dir := method_dir ++ "/" ++ fmt03 run
            let topology := method_dir ++ "/" ++ topname
            let trajectory := run_dir ++ "/" ++ pathname
            (acc2.1 ++ [method ++ "(" ++ toString run ++ ")"],
             acc2.2 ++ [⟨topology, trajectory⟩]))
          acc
      else
        (acc.1 ++ [method],
         acc.2 ++ [⟨method_dir ++ "/" ++ topname, method_dir ++ "/" ++ pathname⟩]))
    ([], [])

/-- `method_names` of `psa_full.py` (line 88) and `psa_short.py` (line 54). -/
def method_names_full : List String :=
  ["DIMS", "FRODA", "MAP", "iENM", "MENM-SP", "MENM-SD",
   "MDdMD", "GOdMD", "Morph", "ANMP", "LinInt"]

/-- `method_names` of `psa_hausdorff-pairs.py` (line 45). -/
def method_names_hpa : List String :=
  ["DIMS", "FRODA", "GOdMD", "MDdMD", "rTMD-F", "rTMD-S",
   "ANMP", "iENM", "MAP", "MENM-SD", "MENM-SP", "Morph", "LinInt"]

/-- `'top.psf' if method is 'DIMS' else 'top.pdb'` of `psa_full.py` and
`psa_short.py`. -/
def topname_full (method : String) : String :=
  if method = "DIMS" then "top.psf" else "top.pdb"

/-- `'top.psf' if 'DIMS' in method or 'TMD' in method else 'top.pdb'` of
`psa_hausdorff-pairs.py` (substring tests). -/
def topname_hpa (method : String) : String :=
  if strContains method "DIMS" || strContains method "TMD" then "top.psf"
  else "top.pdb"

/-- The `labels`/`simulations` lists built by `psa_full.py`. -/
def build_full : List String × List SimFiles :=
  buildLoop topname_full "path.dcd" method_names_full

/-- The `labels`/`simulations` lists built by `psa_short.py`. -/
def build_short : List String × List SimFiles :=
  buildLoop topname_full "fitted_path.dcd" method_names_full

/-- The `labels`/`simulations` lists built by `psa_hausdorff-pairs.py`. -/
def build_hpa : List String × List SimFiles :=
  buildLoop topname_hpa "fitted_psa.dcd" method_names_hpa

/-- Declarative (loop-free) description of the build-loop output: per method,
either the single `LinInt` entry or the three run entries in ascending run
order, labels and filename pairs generated cell by cell in lockstep. -/
def expectedEntries (topnameOf : String → String) (pathname : String)
    (method_names : List String) : List String × List SimFiles :=
  (method_names.flatMap
     (fun m => if m = "LinInt" then [m]
               else [m ++ "(1)", m ++ "(2)", m ++ "(3)"]),
   method_names.flatMap
     (fun m =>
       let d := "methods/" ++ m
       let top := d ++ "/" ++ topnameOf m
       if m = "LinInt" then [⟨top, d ++ "/" ++ pathname⟩]
       else [⟨top, d ++ "/001/" ++ pathname⟩,
             ⟨top, d ++ "/002/" ++ pathname⟩,
             ⟨top, d ++ "/003/" ++ pathname⟩]))

/-! ## Arithmetic of the condensed index -/

/-- Start of row `k` in the row-major strict-upper-triangle enumeration. -/
def rowStart (N k : Nat) : Nat := N * k - k * (k + 1) / 2

theorem condensedIndex_eq_rowStart (N i j : Nat) :
    condensedIndex N i j = rowStart N i + (j - i - 1) := rfl

theorem tri_two_mul (k : Nat) : 2 * (k * (k + 1) / 2) = k * (k + 1) :=
  Nat.two_mul_div_two_of_even (Nat.even_mul_succ_self k)

theorem tri_le (N k : Nat) (h : k ≤ N) : k * (k + 1) / 2 ≤ N * k := by
  have h3 := tri_two_mul k
  have h6 : k * k ≤ N * k := Nat.mul_le_mul_right k h
  have h7 : k * (k + 1) = k * k + k := by ring
  rcases Nat.eq_zero_or_pos k with hk | hk
  · subst hk; simp
  · have h8 : k ≤ N * k := Nat.le_mul_of_pos_left k (by omega)
    omega

theorem rowStart_zero (N : Nat) : rowStart N 0 = 0 := rfl

theorem rowStart_succ (N k : Nat) (h : k + 1 ≤ N) :
    rowStart N (k + 1) = rowStart N k + (N - (k + 1)) := by
  unfold rowStart
  have h1 : (k + 1) * (k + 1 + 1) = k * (k + 1) + (k + 1) * 2 := by ring
  have h2 : (k + 1) * (k + 1 + 1) / 2 = k * (k + 1) / 2 + (k + 1) := by
    rw [h1, Nat.add_mul_div_right _ _ (by norm_num : (0:Nat) < 2)]
  have h3 := tri_two_mul k
  have h4 : N * (k + 1) = N * k + N := by ring
  have h5 : k * (k + 1) / 2 ≤ N * k := tri_le N k (by omega)
  omega

theorem rowStart_mono (N : Nat) {a b : Nat} (hab : a ≤ b) (hbN : b ≤ N) :
    rowStart N a ≤ rowStart N b := by
  induction b with
  | zero =>
      have : a = 0 := by omega
      subst this
      exact Nat.le_refl _
  | succ k ih =>
      rcases Nat.lt_or_ge a (k + 1) with h | h
      · have hk := ih (by omega) (by omega)
        have hs := rowStart_succ N k (by omega)
        omega
      · have : a = k + 1 := by omega
        subst this
        exact Nat.le_refl _

theorem rowStart_last (N : Nat) : rowStart N (N - 1) = N * (N - 1) / 2 := by
  cases N with
  | zero => rfl
  | succ m =>
      show rowStart (m + 1) m = (m + 1) * m / 2
      unfold rowStart
      have hc : (m + 1) * m = m * (m + 1) := by ring
      have h3 := tri_two_mul m
      rw [hc]
      omega

theorem condensedIndex_lt (N i j : Nat) (hij : i < j) (hjN : j < N) :
    condensedIndex N i j < N * (N - 1) / 2 := by
  have h1 := condensedIndex_eq_rowStart N i j
  have h2 := rowStart_succ N i (by omega)
  have h3 := rowStart_mono N (show i + 1 ≤ N - 1 by omega) (by omega)
  have h4 := rowStart_last N
  omega

theorem condensedIndex_lt_of_row_lt (N p q r s : Nat) (hpq : p < q)
    (hqN : q < N) (hrs : r < s) (hsN : s < N) (hpr : p < r) :
    condensedIndex N p q < condensedIndex N r s := by
  have e1 := condensedIndex_eq_rowStart N p q
  have e2 := condensedIndex_eq_rowStart N r s
  have h2 := rowStart_succ N p (by omega)
  have h3 := rowStart_mono N (show p + 1 ≤ r by omega) (by omega)
  omega

theorem condensedIndex_inj (N : Nat) {i j i' j' : Nat}
    (hij : i < j) (hjN : j < N) (hij' : i' < j') (hjN' : j' < N)
    (heq : condensedIndex N i j = condensedIndex N i' j') :
    i = i' ∧ j = j' := by
  have hii : i = i' := by
    rcases Nat.lt_trichotomy i i' with h | h | h
    · exact absurd heq
        (Nat.ne_of_lt (condensedIndex_lt_of_row_lt N i j i' j' hij hjN hij' hjN' h))
    · exact h
    · exact absurd heq.symm
        (Nat.ne_of_lt (condensedIndex_lt_of_row_lt N i' j' i j hij' hjN' hij hjN h))
  subst hii
  refine ⟨rfl, ?_⟩
  have e1 := condensedIndex_eq_rowStart N i j
  have e2 := condensedIndex_eq_rowStart N i j'
  omega

theorem condensedIndex_surj_aux (N : Nat) :
    ∀ m, m ≤ N → ∀ k, k < rowStart N m →
      ∃ i j, i < j ∧ j < N ∧ condensedIndex N i j = k := by
  intro m
  induction m with
  | zero =>
      intro _ k hk
      rw [rowStart_zero] at hk
      exact absurd hk (Nat.not_lt_zero k)
  | succ p ih =>
      intro hpN k hk
      have hs := rowStart_succ N p hpN
      rcases Nat.lt_or_ge k (rowStart N p) with h | h
      · exact ih (by omega) k h
      · refine ⟨p, p + 1 + (k - rowStart N p), by omega, by omega, ?_⟩
        have e := condensedIndex_eq_rowStart N p (p + 1 + (k - rowStart N p))
        omega

theorem condensedIndex_surj (N k : Nat) (hk : k < N * (N - 1) / 2) :
    ∃ i j, i < j ∧ j < N ∧ condensedIndex N i j = k := by
  have h4 := rowStart_last N
  exact condensedIndex_surj_aux N (N - 1) (by omega) k (by omega)

/-! ## Catalog-level lemmas -/

theorem pair_index_ok (cat : Catalog) (a b : SimulationIdentity)
    (ha : a ∈ cat) (hb : b ∈ cat) (hab : a ≠ b) :
    pair_index cat a b =
      .ok (condensedIndex cat.length
            (min (cat.indexOf a) (cat.indexOf b))
            (max (cat.indexOf a) (cat.indexOf b))) := by
  simp [pair_index, ha, hb, hab]

theorem indexOf_min_max (cat : Catalog) {a b : SimulationIdentity}
    (ha : a ∈ cat) (hb : b ∈ cat) (hab : a ≠ b) :
    min (cat.indexOf a) (cat.indexOf b) < max (cat.indexOf a) (cat.indexOf b) ∧
    max (cat.indexOf a) (cat.indexOf b) < cat.length := by
  have hne : cat.indexOf a ≠ cat.indexOf b :=
    fun h => hab ((List.indexOf_inj ha hb).mp h)
  have hla : cat.indexOf a < cat.length := List.indexOf_lt_length.mpr ha
  have hlb : cat.indexOf b < cat.length := List.indexOf_lt_length.mpr hb
  omega

theorem nodup_indexOf_get {l : Catalog} (hnd : l.Nodup)
    (i : Nat) (h : i < l.length) : l.indexOf (l.get ⟨i, h⟩) = i := by
  have hmem : l.get ⟨i, h⟩ ∈ l := List.get_mem l i h
  have hlt : l.indexOf (l.get ⟨i, h⟩) < l.length := List.indexOf_lt_length.mpr hmem
  have hget : l.get ⟨l.indexOf (l.get ⟨i, h⟩), hlt⟩ = l.get ⟨i, h⟩ :=
    List.indexOf_get hlt
  exact congrArg Fin.val ((List.Nodup.get_inj_iff hnd).mp hget)

/-! ## The claims -/

/-- C1: for every catalog of `N ≥ 2` registered identities and every pair of
distinct registered identities `a`, `b` with catalog positions
`i = min(position a, position b)` and `j = max(position a, position b)`,
`pair_index` (the query core of `get_pair_id`) succeeds and returns exactly
`N*i - i*(i+1)/2 + (j - i - 1)`, the row-major strict-upper-triangle
condensed-vector index — as an exact integer value: the natural-number
subtractions in the code's formula do not truncate. -/
theorem pair_index_formula (cat : Catalog) (a b : SimulationIdentity)
    (i j : Nat) (hN : 2 ≤ cat.length) (ha : a ∈ cat) (hb : b ∈ cat)
    (hab : a ≠ b)
    (hi : i = min (cat.indexOf a) (cat.indexOf b))
    (hj : j = max (cat.indexOf a) (cat.indexOf b)) :
    ∃ k : Nat, pair_index cat a b = .ok k ∧
      (k : Int) = (cat.length : Int) * i - (i * (i + 1) / 2 : Nat)
        + ((j : Int) - i - 1) := by
  subst hi
  subst hj
  obtain ⟨hij, hjN⟩ := indexOf_min_max cat ha hb hab
  refine ⟨_, pair_index_ok cat a b ha hb hab, ?_⟩
  set i := min (cat.indexOf a) (cat.indexOf b) with hi'
  set j := max (cat.indexOf a) (cat.indexOf b) with hj'
  have hT := tri_le cat.length i (by omega)
  unfold condensedIndex
  omega

/-- Witness for C1 at the spec's concrete scenario: ("FRODA",2) and
("LinInt",1) sit at positions 4 and 6 of the 7-element demo catalog. -/
theorem pair_index_formula_witness :
    ∃ k : Nat,
      pair_index demoCatalog ⟨"FRODA", 2⟩ ⟨"LinInt", 1⟩ = .ok k ∧
      (k : Int) = (demoCatalog.length : Int) * 4 - (4 * (4 + 1) / 2 : Nat)
        + ((6 : Int) - 4 - 1) :=
  pair_index_formula demoCatalog ⟨"FRODA", 2⟩ ⟨"LinInt", 1⟩ 4 6
    (by decide) (by decide) (by decide) (by decide) (by decide) (by decide)

/-- C2: for every catalog of `N ≥ 2` distinct registered identities, the
values of `pair_index` over the distinct unordered pairs of registered
identities are exactly `{0, …, C(N,2)-1}`: every query succeeds with a value
below `C(N,2)`, two queries agree only on the same unordered pair, and every
index below `C(N,2)` is attained. -/
theorem pair_index_bijection (cat : Catalog) (hN : 2 ≤ cat.length)
    (hnd : cat.Nodup) :
    (∀ a ∈ cat, ∀ b ∈ cat, a ≠ b →
        ∃ k, pair_index cat a b = .ok k ∧
          k < cat.length * (cat.length - 1) / 2) ∧
    (∀ a ∈ cat, ∀ b ∈ cat, ∀ c ∈ cat, ∀ d ∈ cat, a ≠ b → c ≠ d →
        pair_index cat a b = pair_index cat c d →
        (a = c ∧ b = d) ∨ (a = d ∧ b = c)) ∧
    (∀ k, k < cat.length * (cat.length - 1) / 2 →
        ∃ a ∈ cat, ∃ b ∈ cat, a ≠ b ∧ pair_index cat a b = .ok k) := by
  refine ⟨?_, ?_, ?_⟩
  · intro a ha b hb hab
    obtain ⟨hij, hjN⟩ := indexOf_min_max cat ha hb hab
    exact ⟨_, pair_index_ok cat a b ha hb hab, condensedIndex_lt _ _ _ hij hjN⟩
  · intro a ha b hb c hc d hd hab hcd heq
    rw [pair_index_ok cat a b ha hb hab, pair_index_ok cat c d hc hd hcd] at heq
    simp only [Except.ok.injEq] at heq
    obtain ⟨h1, h2⟩ := indexOf_min_max cat ha hb hab
    obtain ⟨h3, h4⟩ := indexOf_min_max cat hc hd hcd
    obtain ⟨hmin, hmax⟩ := condensedIndex_inj cat.length h1 h2 h3 h4 heq
    have hcases : (cat.indexOf a = cat.indexOf c ∧ cat.indexOf b = cat.indexOf d) ∨
        (cat.indexOf a = cat.indexOf d ∧ cat.indexOf b = cat.indexOf c) := by
      omega
    rcases hcases with ⟨u, v⟩ | ⟨u, v⟩
    · exact Or.inl ⟨(List.indexOf_inj ha hc).mp u, (List.indexOf_inj hb hd).mp v⟩
    · exact Or.inr ⟨(List.indexOf_inj ha hd).mp u, (List.indexOf_inj hb hc).mp v⟩
  · intro k hk
    obtain ⟨i, j, hij, hjN, hcond⟩ := condensedIndex_surj cat.length k hk
    have hiN : i < cat.length := by omega
    have hne : cat.get ⟨i, hiN⟩ ≠ cat.get ⟨j, hjN⟩ := by
      intro h
      have h2 := congrArg Fin.val ((List.Nodup.get_inj_iff hnd).mp h)
      simp only at h2
      omega
    refine ⟨_, List.get_mem cat i hiN, _, List.get_mem cat j hjN, hne, ?_⟩
    rw [pair_index_ok cat _ _ (List.get_mem cat i hiN) (List.get_mem cat j hjN) hne,
      nodup_indexOf_get hnd i hiN, nodup_indexOf_get hnd j hjN,
      Nat.min_eq_left (by omega : i ≤ j), Nat.max_eq_right (by omega : i ≤ j), hcond]

/-- Witness for C2 at the 7-element demo catalog. -/
theorem pair_index_bijection_witness :
    (∀ a ∈ demoCatalog, ∀ b ∈ demoCatalog, a ≠ b →
        ∃ k, pair_index demoCatalog a b = .ok k ∧
          k < demoCatalog.length * (demoCatalog.length - 1) / 2) ∧
    (∀ a ∈ demoCatalog, ∀ b ∈ demoCatalog, ∀ c ∈ demoCatalog,
        ∀ d ∈ demoCatalog, a ≠ b → c ≠ d →
        pair_index demoCatalog a b = pair_index demoCatalog c d →
        (a = c ∧ b = d) ∨ (a = d ∧ b = c)) ∧
    (∀ k, k < demoCatalog.length * (demoCatalog.length - 1) / 2 →
        ∃ a ∈ demoCatalog, ∃ b ∈ demoCatalog, a ≠ b ∧
          pair_index demoCatalog a b = .ok k) :=
  pair_index_bijection demoCatalog (by decide) (by decide)

/-- C3: for distinct registered identities `a`, `b` the pair index does not
depend on the argument order: `pair_index cat a b = pair_index cat b a`. -/
theorem pair_index_symm (cat : Catalog) (a b : SimulationIdentity)
    (ha : a ∈ cat) (hb : b ∈ cat) (hab : a ≠ b) :
    pair_index cat a b = pair_index cat b a := by
  rw [pair_index_ok cat a b ha hb hab, pair_index_ok cat b a hb ha (Ne.symm hab),
    Nat.min_comm, Nat.max_comm]

/-- Witness for C3: argument-order independence at a concrete pair of the
demo catalog. -/
theorem pair_index_symm_witness :
    pair_index demoCatalog ⟨"DIMS", 2⟩ ⟨"FRODA", 3⟩ =
      pair_index demoCatalog ⟨"FRODA", 3⟩ ⟨"DIMS", 2⟩ :=
  pair_index_symm demoCatalog ⟨"DIMS", 2⟩ ⟨"FRODA", 3⟩
    (by decide) (by decide) (by decide)

/-- C4: on a fresh indexer, registering "DIMS" with runs [1,2,3], then
"FRODA" with runs [1,2,3], then "LinInt" with run [1] yields the 7-identity
demo catalog (positions 0..6 in that order), and then
`pair_index(("DIMS",1), ("DIMS",2))` returns 0 while
`pair_index(("FRODA",2), ("LinInt",1))` returns 19. -/
theorem pair_id_concrete_scenario :
    ((add_sim emptyPairID "DIMS" [1, 2, 3]).bind
        (fun s => add_sim s "FRODA" [1, 2, 3])).bind
        (fun s => add_sim s "LinInt" [1]) = .ok ⟨demoCatalog, false⟩ ∧
    demoCatalog.length = 7 ∧
    (get_pair_id ⟨demoCatalog, false⟩ ⟨"DIMS", 1⟩ ⟨"DIMS", 2⟩).1 = .ok 0 ∧
    (get_pair_id ⟨demoCatalog, false⟩ ⟨"FRODA", 2⟩ ⟨"LinInt", 1⟩).1 = .ok 19 :=
  ⟨rfl, rfl, rfl, rfl⟩

/-- C5: a `register` (`add_sim`) call in the open phase, for identities none
of which are in the Catalog, succeeds and its only effect is to append one
SimulationIdentity per run number of the given runs, in ascending run order,
after all previously registered identities. -/
theorem add_sim_appends (st : PairID) (name : String) (runs : List Nat)
    (hopen : st.sealed = false)
    (hfresh : ∀ r ∈ runs, SimulationIdentity.mk name r ∉ st.catalog) :
    ∃ L : List SimulationIdentity,
      add_sim st name runs = .ok { catalog := st.catalog ++ L, sealed := false } ∧
      (L.map SimulationIdentity.run).Perm runs.dedup ∧
      List.Sorted (fun x y => x ≤ y) (L.map SimulationIdentity.run) ∧
      ∀ x ∈ L, x.name = name := by
  have hfind :
      runs.find? (fun r => decide (SimulationIdentity.mk name r ∈ st.catalog))
        = none := by
    rw [List.find?_eq_none]
    intro x hx
    simpa using hfresh x hx
  have hmap :
      ((runs.dedup.insertionSort (fun x y => x ≤ y)).map
          (fun r => SimulationIdentity.mk name r)).map SimulationIdentity.run
        = runs.dedup.insertionSort (fun x y => x ≤ y) := by
    rw [List.map_map]
    exact List.map_id _
  refine ⟨(runs.dedup.insertionSort (fun x y => x ≤ y)).map
      (fun r => SimulationIdentity.mk name r), ?_, ?_, ?_, ?_⟩
  · unfold add_sim
    rw [hopen, hfind]
    simp
  · rw [hmap]
    exact List.perm_insertionSort _ _
  · rw [hmap]
    exact List.sorted_insertionSort _ _
  · intro x hx
    simp only [List.mem_map] at hx
    obtain ⟨r, _, rfl⟩ := hx
    rfl

/-- Witness for C5: registering "DIMS" with runs [1,2,3] on the fresh
indexer appends exactly those three identities in order. -/
theorem add_sim_appends_witness :
    ∃ L : List SimulationIdentity,
      add_sim emptyPairID "DIMS" [1, 2, 3] =
        .ok { catalog := emptyPairID.catalog ++ L, sealed := false } ∧
      (L.map SimulationIdentity.run).Perm ([1, 2, 3] : List Nat).dedup ∧
      List.Sorted (fun x y => x ≤ y) (L.map SimulationIdentity.run) ∧
      ∀ x ∈ L, x.name = "DIMS" :=
  add_sim_appends emptyPairID "DIMS" [1, 2, 3] rfl (by decide)

/-- C6: operations preserve the position of each already-registered
identity: a `get_pair_id` query leaves the Catalog untouched, and a
successful `add_sim` only appends, so every previously registered identity
keeps its Catalog position. -/
theorem catalog_positions_stable (st st' : PairID) (name : String)
    (runs : List Nat) (a b : SimulationIdentity)
    (hok : add_sim st name runs = .ok st') :
    ((get_pair_id st a b).2).catalog = st.catalog ∧
    (∃ L, st'.catalog = st.catalog ++ L) ∧
    ∀ x ∈ st.catalog, st'.catalog.indexOf x = st.catalog.indexOf x := by
  have hL : ∃ L, st'.catalog = st.catalog ++ L := by
    unfold add_sim at hok
    split at hok
    · exact Except.noConfusion hok
    · split at hok
      · exact Except.noConfusion hok
      · simp only [Except.ok.injEq] at hok
        exact ⟨_, by rw [← hok]⟩
  obtain ⟨L, hLe⟩ := hL
  refine ⟨rfl, ⟨L, hLe⟩, ?_⟩
  intro x hx
  rw [hLe]
  exact List.indexOf_append_of_mem hx

/-- Witness for C6 with a concrete successful registration on the fresh
indexer. -/
theorem catalog_positions_stable_witness :
    ((get_pair_id emptyPairID ⟨"DIMS", 1⟩ ⟨"DIMS", 2⟩).2).catalog
        = emptyPairID.catalog ∧
    (∃ L, ([⟨"DIMS", 1⟩, ⟨"DIMS", 2⟩, ⟨"DIMS", 3⟩] : Catalog)
        = emptyPairID.catalog ++ L) ∧
    ∀ x ∈ emptyPairID.catalog,
      ([⟨"DIMS", 1⟩, ⟨"DIMS", 2⟩, ⟨"DIMS", 3⟩] : Catalog).indexOf x
        = emptyPairID.catalog.indexOf x :=
  catalog_positions_stable emptyPairID
    ⟨[⟨"DIMS", 1⟩, ⟨"DIMS", 2⟩, ⟨"DIMS", 3⟩], false⟩
    "DIMS" [1, 2, 3] ⟨"DIMS", 1⟩ ⟨"DIMS", 2⟩ rfl

/-- C7: a `pair_index` query fails with `UnknownIdentityError` when either
identity was never registered (the unregistered-identity check coming first,
in the spec's order), fails with `InvalidPairError` when both are registered
and equal, and succeeds with an index when both are registered and
distinct. -/
theorem pair_index_error_cases (cat : Catalog) (a b : SimulationIdentity) :
    (a ∉ cat → pair_index cat a b = .error (.UnknownIdentityError a)) ∧
    (a ∈ cat → b ∉ cat → pair_index cat a b = .error (.UnknownIdentityError b)) ∧
    (a ∈ cat → b ∈ cat → a = b →
        pair_index cat a b = .error (.InvalidPairError a)) ∧
    (a ∈ cat → b ∈ cat → a ≠ b → ∃ k, pair_index cat a b = .ok k) := by
  refine ⟨fun h => ?_, fun h1 h2 => ?_, fun h1 h2 h3 => ?_, fun h1 h2 h3 => ?_⟩
  · simp [pair_index, h]
  · simp [pair_index, h1, h2]
  · simp [pair_index, h1, h2, h3]
  · exact ⟨_, pair_index_ok cat a b h1 h2 h3⟩

/-- Witness for C7: each error case and the success case at concrete
inputs. -/
theorem pair_index_error_cases_witness :
    pair_index [] ⟨"DIMS", 1⟩ ⟨"DIMS", 2⟩
        = .error (.UnknownIdentityError ⟨"DIMS", 1⟩) ∧
    pair_index [⟨"DIMS", 1⟩] ⟨"DIMS", 1⟩ ⟨"DIMS", 2⟩
        = .error (.UnknownIdentityError ⟨"DIMS", 2⟩) ∧
    pair_index [⟨"DIMS", 1⟩] ⟨"DIMS", 1⟩ ⟨"DIMS", 1⟩
        = .error (.InvalidPairError ⟨"DIMS", 1⟩) ∧
    ∃ k, pair_index [⟨"DIMS", 1⟩, ⟨"DIMS", 2⟩] ⟨"DIMS", 1⟩ ⟨"DIMS", 2⟩ = .ok k :=
  ⟨(pair_index_error_cases [] ⟨"DIMS", 1⟩ ⟨"DIMS", 2⟩).1 (by decide),
   (pair_index_error_cases [⟨"DIMS", 1⟩] ⟨"DIMS", 1⟩ ⟨"DIMS", 2⟩).2.1
     (by decide) (by decide),
   (pair_index_error_cases [⟨"DIMS", 1⟩] ⟨"DIMS", 1⟩ ⟨"DIMS", 1⟩).2.2.1
     (by decide) (by decide) rfl,
   (pair_index_error_cases [⟨"DIMS", 1⟩, ⟨"DIMS", 2⟩] ⟨"DIMS", 1⟩
     ⟨"DIMS", 2⟩).2.2.2 (by decide) (by decide) (by decide)⟩

/-- C8: registering, in the open phase, a (name, run) identity that is
already in the Catalog fails with `DuplicateIdentityError` (naming some
already-registered identity of the call), and the call produces no successor
state, so the Catalog is unchanged. -/
theorem add_sim_duplicate_error (st : PairID) (name : String)
    (runs : List Nat) (r : Nat) (hopen : st.sealed = false)
    (hr : r ∈ runs) (hdup : SimulationIdentity.mk name r ∈ st.catalog) :
    ∃ r' : Nat, r' ∈ runs ∧ SimulationIdentity.mk name r' ∈ st.catalog ∧
      add_sim st name runs = .error (.DuplicateIdentityError ⟨name, r'⟩) ∧
      ∀ st' : PairID, add_sim st name runs ≠ .ok st' := by
  cases hf : runs.find?
      (fun x => decide (SimulationIdentity.mk name x ∈ st.catalog)) with
  | none =>
      exfalso
      have hx := List.find?_eq_none.mp hf r hr
      simp [hdup] at hx
  | some r' =>
      have h1 : SimulationIdentity.mk name r' ∈ st.catalog := by
        simpa using List.find?_some hf
      have h2 : r' ∈ runs := List.mem_of_find?_eq_some hf
      have he : add_sim st name runs
          = .error (.DuplicateIdentityError ⟨name, r'⟩) := by
        unfold add_sim
        rw [hopen, hf]
        simp
      exact ⟨r', h2, h1, he,
        fun st' h => by rw [he] at h; exact Except.noConfusion h⟩

/-- Witness for C8: re-registering ("DIMS", 2) on a catalog that already
holds it is rejected with `DuplicateIdentityError`. -/
theorem add_sim_duplicate_error_witness :
    ∃ r' : Nat, r' ∈ [2] ∧
      SimulationIdentity.mk "DIMS" r' ∈ demoCatalog ∧
      add_sim ⟨demoCatalog, false⟩ "DIMS" [2]
        = .error (.DuplicateIdentityError ⟨"DIMS", r'⟩) ∧
      ∀ st' : PairID, add_sim ⟨demoCatalog, false⟩ "DIMS" [2] ≠ .ok st' :=
  add_sim_duplicate_error ⟨demoCatalog, false⟩ "DIMS" [2] 2
    rfl (by decide) (by decide)

/-- C9: after any `get_pair_id` query the component is in the closed phase:
every subsequent `add_sim` call on the resulting state is rejected with
`CatalogSealedError`, and the query itself left the Catalog unchanged. -/
theorem sealed_after_query (st : PairID) (a b : SimulationIdentity)
    (name : String) (runs : List Nat) :
    (get_pair_id st a b).2.sealed = true ∧
    add_sim (get_pair_id st a b).2 name runs = .error .CatalogSealedError ∧
    (get_pair_id st a b).2.catalog = st.catalog :=
  ⟨rfl, rfl, rfl⟩

/-- C10: in every driver script the build loop keeps `labels` and
`simulations` in lockstep: both lists have equal length (31 for
`psa_full.py` and `psa_short.py`, 37 for `psa_hausdorff-pairs.py`), and each
equals the declarative per-method description in which every method other
than 'LinInt' contributes exactly three consecutive entries for runs 1, 2, 3
in ascending order (labelled "method(run)", trajectory in the zero-padded
run directory) and 'LinInt' contributes exactly one entry labelled
"LinInt" — entry k of `labels` naming the same method and run as entry k of
`simulations`. -/
theorem driver_build_loops_lockstep :
    (build_full.1.length = build_full.2.length ∧ build_full.1.length = 31) ∧
    (build_short.1.length = build_short.2.length ∧ build_short.1.length = 31) ∧
    (build_hpa.1.length = build_hpa.2.length ∧ build_hpa.1.length = 37) ∧
    build_full = expectedEntries topname_full "path.dcd" method_names_full ∧
    build_short = expectedEntries topname_full "fitted_path.dcd" method_names_full ∧
    build_hpa = expectedEntries topname_hpa "fitted_psa.dcd" method_names_hpa :=
  ⟨⟨rfl, rfl⟩, ⟨rfl, rfl⟩, ⟨rfl, rfl⟩, rfl, rfl, rfl⟩
